import Mathlib

/-!
Verification of the turbo_mysql_core boundary layer (src/turbo_mysql_core).

The Rust modules `utils.rs` and `ffi.rs` are shallowly embedded here:

* byte buffers are `List Nat` (each element a byte value `< 256`; the
  encoders below only ever produce values `< 256`);
* the `BinaryReader` (a slice plus a cursor) is embedded as the list of
  bytes not yet consumed; every read primitive returns the optional value
  read together with the remaining bytes, reproducing the cursor movement
  of the source exactly (in particular `read_blob` leaves the cursor after
  the length field when only the payload is truncated);
* `f64` values are carried as their 64-bit pattern: the codec never
  interprets a float numerically, it only moves its eight bytes;
* machine integers are `Nat`/`Int`; `leBytes w v` encodes `v % 2^(8*w)`,
  matching the `to_le_bytes` truncating behaviour of the source;
* the asynchronous handlers of `ffi.rs` are embedded as pure functions
  from their arguments plus an oracle for every fallible backend step
  (connection acquisition, statement execution, per-chunk batch results)
  to the list of completion-callback invocations they perform, separated
  into the synchronous phase and the spawned-task phase.
-/

namespace TurboMysql

/-! ### Little-endian byte primitives -/

/-- The `w` little-endian bytes of `v` (that is, of `v % 2^(8*w)`); this is the
shared core of the `write_u16/u32/u64/i64` impls of `BinaryWrite` in
`utils.rs`, all of which are `to_le_bytes`. -/
def leBytes : Nat → Nat → List Nat
  | 0, _ => []
  | w + 1, v => v % 256 :: leBytes w (v / 256)

/-- Recompose a little-endian byte list into a number
(`from_le_bytes` of the source readers). -/
def fromLeBytes : List Nat → Nat
  | [] => 0
  | b :: r => b + 256 * fromLeBytes r

theorem leBytes_length (w v : Nat) : (leBytes w v).length = w := by
  induction w generalizing v with
  | zero => rfl
  | succ w ih => simp [leBytes, ih]

theorem fromLeBytes_leBytes (w v : Nat) :
    fromLeBytes (leBytes w v) = v % 2 ^ (8 * w) := by
  induction w generalizing v with
  | zero => simp [leBytes, fromLeBytes, Nat.mod_one]
  | succ w ih =>
      have hpow : (2 : Nat) ^ (8 * (w + 1)) = 256 * 2 ^ (8 * w) := by
        rw [Nat.mul_add, pow_add]; ring
      rw [leBytes, fromLeBytes, ih, hpow, Nat.mod_mul]

/-! ### `BinaryReader` (utils.rs): state is the unread suffix -/

/-- Source `BinaryReader::read_u8`. -/
def read_u8 : List Nat → Option Nat × List Nat
  | [] => (none, [])
  | b :: r => (some b, r)

/-- Read `n` raw bytes if available; on failure the cursor does not move.
Shared core of the bounds checks `pos + n <= data.len()` of the source. -/
def readN (n : Nat) (l : List Nat) : Option (List Nat) × List Nat :=
  if n ≤ l.length then (some (l.take n), l.drop n) else (none, l)

/-- Source `BinaryReader::read_u32`. -/
def read_u32 (l : List Nat) : Option Nat × List Nat :=
  match readN 4 l with
  | (some bs, r) => (some (fromLeBytes bs), r)
  | (none, r) => (none, r)

/-- A `BinaryReader::read_u64`-shaped read used by the header decoder below
(the source reader itself stops at `u32`; the caller-side decoder needs it). -/
def read_u64 (l : List Nat) : Option Nat × List Nat :=
  match readN 8 l with
  | (some bs, r) => (some (fromLeBytes bs), r)
  | (none, r) => (none, r)

/-- Reinterpret a 64-bit pattern as a signed `i64`
(`i64::from_le_bytes` of `read_i64`). -/
def decode_i64 (u : Nat) : Int :=
  if u < 2 ^ 63 then (u : Int) else (u : Int) - 2 ^ 64

/-- Source `BinaryReader::read_i64`. -/
def read_i64 (l : List Nat) : Option Int × List Nat :=
  match readN 8 l with
  | (some bs, r) => (some (decode_i64 (fromLeBytes bs)), r)
  | (none, r) => (none, r)

/-- Source `BinaryReader::read_f64`; the float is carried as its 64-bit pattern. -/
def read_f64 (l : List Nat) : Option Nat × List Nat :=
  match readN 8 l with
  | (some bs, r) => (some (fromLeBytes bs), r)
  | (none, r) => (none, r)

/-- Source `BinaryReader::read_blob`: a `u32` length followed by that many bytes.
When only the payload is truncated the cursor stays after the length field,
exactly as in the source (`read_u32` has already advanced `pos`). -/
def read_blob (l : List Nat) : Option (List Nat) × List Nat :=
  match read_u32 l with
  | (some len, r) => if len ≤ r.length then (some (r.take len), r.drop len) else (none, r)
  | (none, r) => (none, r)

/-- Source `BinaryWrite::write_blob`: `u32` length then the bytes. -/
def write_blob (bs : List Nat) : List Nat :=
  leBytes 4 bs.length ++ bs

/-! ### Parameter decoding (utils.rs `parse_value`, `parse_params_list`) -/

/-- The subset of `mysql_async::Value` produced by the parameter decoder:
`NULL`, `Int`, `Double` (carried as its bit pattern) and `Bytes`. -/
inductive MValue
  | null
  | int (i : Int)
  | double (bits : Nat)
  | bytes (bs : List Nat)
deriving DecidableEq

/-- Function `parse_value` of utils.rs: one tag byte, then the tag's payload;
any unknown tag or failed read yields `NULL`. -/
def parse_value (l : List Nat) : MValue × List Nat :=
  match read_u8 l with
  | (some 0, r) => (.null, r)
  | (some 1, r) =>
      match read_i64 r with
      | (some i, r') => (.int i, r')
      | (none, r') => (.null, r')
  | (some 2, r) =>
      match read_f64 r with
      | (some b, r') => (.double b, r')
      | (none, r') => (.null, r')
  | (some 3, r) | (some 4, r) =>
      match read_blob r with
      | (some bs, r') => (.bytes bs, r')
      | (none, r') => (.null, r')
  | (some _, r) => (.null, r)
  | (none, r) => (.null, r)

/-- The `for _ in 0..count` loop of `parse_params_list`: read exactly `n`
values, threading the reader. -/
def parse_values : Nat → List Nat → List MValue × List Nat
  | 0, l => ([], l)
  | n + 1, l =>
      let p := parse_value l
      let q := parse_values n p.2
      (p.1 :: q.1, q.2)

/-- Function `parse_params_list` of utils.rs: a null/empty buffer gives no
parameters; otherwise `u32 count` then `count` values
(`count = read_u32().unwrap_or(0)`). -/
def parse_params_list (data : List Nat) : List MValue :=
  if data.isEmpty then []
  else
    match read_u32 data with
    | (some count, rest) => (parse_values count rest).1
    | (none, _) => []

/-! ### Caller-side parameter encoding (spec §4.1) -/

/-- The caller's typed view of a parameter: the distinction between
`str` (tag 3) and `blob` (tag 4) exists only on the encoding side. -/
inductive WireValue
  | null
  | int (i : Int)
  | float (bits : Nat)
  | str (bs : List Nat)
  | blob (bs : List Nat)
deriving DecidableEq

/-- Modelled from the spec: the caller-side encoding of one parameter
value per the §4.1 layout (`u8 tag || payload`; tag 0 no payload, tag 1 an
`i64`, tag 2 an `f64`, tags 3/4 a blob).  The encoder is not part of
`src/` (caller-side decoding/encoding lives outside the core). -/
def encode_value : WireValue → List Nat
  | .null => [0]
  | .int i => 1 :: leBytes 8 (i % 2 ^ 64).toNat
  | .float b => 2 :: leBytes 8 b
  | .str bs => 3 :: write_blob bs
  | .blob bs => 4 :: write_blob bs

/-- Modelled from the spec: the §4.1 Parameter List layout,
`u32 count || count * Value`. -/
def encode_params (vs : List WireValue) : List Nat :=
  leBytes 4 vs.length ++ vs.flatMap encode_value

/-- Which decoded value a wire value denotes: tags 3 and 4 both denote a
`Bytes` value. -/
def WireValue.denote : WireValue → MValue
  | .null => .null
  | .int i => .int i
  | .float b => .double b
  | .str bs => .bytes bs
  | .blob bs => .bytes bs

/-- A wire value whose payload fits its field: an `i64`-ranged integer, a
64-bit float pattern, a blob of fewer than `2^32` actual bytes. -/
def WireValue.representable : WireValue → Bool
  | .null => true
  | .int i => decide (-(2 ^ 63) ≤ i ∧ i < 2 ^ 63)
  | .float b => decide (b < 2 ^ 64)
  | .str bs => decide (bs.length < 2 ^ 32) && bs.all (fun b => decide (b < 256))
  | .blob bs => decide (bs.length < 2 ^ 32) && bs.all (fun b => decide (b < 256))

/-! ### Result-set serialization (utils.rs `serialize_result`) -/

/-- Column metadata as read from `mysql_async` (`name_str` bytes,
`column_type as u16`, `character_set`). -/
structure Col where
  name : List Nat
  column_type : Nat
  character_set : Nat
deriving DecidableEq

/-- A row cell as matched by `serialize_result`.  The `float` payload is
the 64-bit pattern of the already-widened `f32` (`*v as f64` in the
source; the numeric widening itself stays outside the embedding), and the
`double` payload is the `f64` bit pattern. -/
inductive Cell
  | null
  | int (v : Int)
  | uint (v : Nat)
  | float (bits : Nat)
  | double (bits : Nat)
  | bytes (bs : List Nat)
  | date (y mo d h mi s mic : Nat)
  | time (neg : Bool) (d : Nat) (h : Nat) (m : Nat) (s : Nat) (mic : Nat)
deriving DecidableEq

/-- A `mysql_async::Row`: its column metadata plus its cell values. -/
structure RowM where
  columns : List Col
  cells : List Cell
deriving DecidableEq

/-- ASCII decimal digits of `n` (the digits of Rust's `{}` formatting). -/
def natDigits (n : Nat) : List Nat :=
  if h : n < 10 then [48 + n]
  else natDigits (n / 10) ++ [48 + n % 10]
termination_by n
decreasing_by exact Nat.div_lt_self (by omega) (by omega)

/-- Rust `{:0w}` formatting: decimal digits left-padded with `'0'`
to width `w` (wider numbers keep all their digits). -/
def padNum (w n : Nat) : List Nat :=
  List.replicate (w - (natDigits n).length) 48 ++ natDigits n

/-- The blob payload a non-NULL cell is serialized with (the bytes handed
to `write_blob` in each arm of the `match` of `serialize_result`);
`none` for the SQL NULL cell.  45/58/32/46 are `'-' ':' ' ' '.'`. -/
def cell_payload : Cell → Option (List Nat)
  | .null => none
  | .int v => some (leBytes 8 (v % 2 ^ 64).toNat)
  | .uint v => some (leBytes 8 v)
  | .float b => some (leBytes 8 b)
  | .double b => some (leBytes 8 b)
  | .bytes bs => some bs
  | .date y mo d h mi s mic =>
      some (padNum 4 y ++ [45] ++ padNum 2 mo ++ [45] ++ padNum 2 d ++ [32] ++
        padNum 2 h ++ [58] ++ padNum 2 mi ++ [58] ++ padNum 2 s ++ [46] ++ padNum 6 mic)
  | .time neg d h m s mic =>
      some ((if neg then [45] else []) ++ padNum 2 (d * 24 + h) ++ [58] ++
        padNum 2 m ++ [58] ++ padNum 2 s ++ [46] ++ padNum 6 mic)

/-- One cell of the row loop of `serialize_result`:
`u8 present(0|1)`, then for a present cell its payload as a blob. -/
def cell_bytes (c : Cell) : List Nat :=
  match cell_payload c with
  | none => [0]
  | some p => 1 :: write_blob p

/-- A cell whose blob payload length fits the `u32` length field. -/
def cell_wf (c : Cell) : Bool :=
  match cell_payload c with
  | none => true
  | some p => decide (p.length < 2 ^ 32)

/-- The inner loop of `serialize_result`: a row is emitted with exactly
`cols_len` cells, reading `row[i]` when `i < row.len()` and `NULL`
otherwise. -/
def serialize_row_cells (cols_len : Nat) (cells : List Cell) : List Nat :=
  (List.range cols_len).flatMap (fun i => cell_bytes (cells.getD i .null))

/-- One `ColumnDescriptor`: `blob name || u16 type_code || u16 charset`. -/
def col_bytes (c : Col) : List Nat :=
  write_blob c.name ++ leBytes 2 c.column_type ++ leBytes 2 c.character_set

/-- Function `serialize_result` of utils.rs: status byte, `affected_rows`,
`last_insert_id`; an empty row vector short-circuits with
`column_count = 0, row_count = 0`; otherwise the column metadata of the
first row, then the rows. -/
def serialize_result (rows : List RowM) (affected_rows last_insert_id : Nat) : List Nat :=
  let hdr := 1 :: (leBytes 8 affected_rows ++ leBytes 8 last_insert_id)
  match rows with
  | [] => hdr ++ leBytes 4 0 ++ leBytes 4 0
  | r0 :: _ =>
      let cols_meta := r0.columns
      let cols_len := cols_meta.length
      hdr ++ leBytes 4 cols_len ++ cols_meta.flatMap col_bytes
        ++ leBytes 4 rows.length
        ++ rows.flatMap (fun row => serialize_row_cells cols_len row.cells)

/-! ### Error envelope and callback plumbing (utils.rs) -/

/-- Message bytes of an error string.  The source sends the UTF-8 bytes;
every message produced by this layer is ASCII, where code points and UTF-8
bytes coincide. -/
def strBytes (s : String) : List Nat :=
  s.data.map Char.toNat

/-- Function `encode_error` of utils.rs: `u8 status(=0=Error) || blob message`. -/
def encode_error (msg : String) : List Nat :=
  0 :: write_blob (strBytes msg)

/-! ### Caller-side decoders used only to state theorems -/

/-- Decoder for the §4.1 Ok-header layout
(`u8 status || u64 affected_rows || u64 last_insert_id || u32 column_count
|| u32 row_count`), used to state properties of `serialize_result`. -/
def decode_header (buf : List Nat) :
    Option (Nat × Nat × Nat × Nat × Nat × List Nat) :=
  match read_u8 buf with
  | (some st, r1) =>
      match read_u64 r1 with
      | (some aff, r2) =>
          match read_u64 r2 with
          | (some lid, r3) =>
              match read_u32 r3 with
              | (some cc, r4) =>
                  match read_u32 r4 with
                  | (some rc, r5) => some (st, aff, lid, cc, rc, r5)
                  | (none, _) => none
              | (none, _) => none
          | (none, _) => none
      | (none, _) => none
  | (none, _) => none

/-- Decoder for `n` serialized row cells (`u8 present || [blob]` each),
used to state properties of `serialize_row_cells`; a decoded cell is
`none` for SQL NULL and `some payload` otherwise. -/
def decode_cells : Nat → List Nat → Option (List (Option (List Nat)) × List Nat)
  | 0, l => some ([], l)
  | n + 1, l =>
      match read_u8 l with
      | (some 0, r) =>
          match decode_cells n r with
          | some (cs, r') => some (none :: cs, r')
          | none => none
      | (some 1, r) =>
          match read_blob r with
          | (some bs, r') =>
              match decode_cells n r' with
              | some (cs, r'') => some (some bs :: cs, r'')
              | none => none
          | (none, _) => none
      | _ => none

/-! ### Batch chunker (ffi.rs `execute_batch!`) -/

/-- Recursion core of `chunksOf`, structurally recursive on a fuel bound
for the number of iterations (the list length suffices, since every step
with positive chunk size consumes at least one element). -/
def chunksGo {α : Type} (k : Nat) : Nat → List α → List (List α)
  | _, [] => []
  | 0, _ :: _ => []
  | fuel + 1, a :: l =>
      match k with
      | 0 => []
      | k + 1 => (a :: l).take (k + 1) :: chunksGo (k + 1) fuel ((a :: l).drop (k + 1))

/-- Rust `slice::chunks`: consecutive chunks of `k` elements, the final
chunk possibly shorter; no chunks for an empty slice. -/
def chunksOf {α : Type} (k : Nat) (l : List α) : List (List α) :=
  chunksGo k l.length l

/-- Rust `str::split(',')` on the character list of the column string:
every string splits into at least one (possibly empty) piece. -/
def split_comma : List Char → List (List Char)
  | [] => [[]]
  | c :: rest =>
      if c = ',' then [] :: split_comma rest
      else
        match split_comma rest with
        | [] => [[c]]
        | g :: gs => (c :: g) :: gs

/-- The `columns_str.split(',').collect()` step of `execute_batch!`. -/
def split_columns (s : String) : List String :=
  (split_comma s.data).map fun l => String.mk l

/-- Backend outcome of executing one chunk statement: `exec_drop`'s
result, plus the connection's `affected_rows()` and `last_insert_id()`
observed after a success. -/
inductive ChunkRes
  | ok (affected : Nat) (last_id : Option Nat)
  | err (msg : String)

/-- What a batch execution did: the callback invocations it performed
(request id and payload) and the statements it handed to the backend, in
order (query text plus positional parameters). -/
structure BatchTrace where
  responses : List (Int × List Nat)
  statements : List (String × List MValue)
deriving DecidableEq

/-- The per-chunk query text of `execute_batch!`:
`INSERT INTO <table> (<columns>) VALUES (…),(…),…` plus the optional
upsert clause; the placeholder group repeats `chunk.len() / num_cols`
times. -/
def chunk_query (table_str columns_str base_placeholders update_clause : String)
    (num_cols : Nat) (chunk : List MValue) : String :=
  "INSERT INTO " ++ table_str ++ " (" ++ columns_str ++ ") VALUES "
    ++ String.intercalate ","
        (List.replicate (chunk.length / num_cols) ("(" ++ base_placeholders ++ ")"))
    ++ update_clause

/-- The chunk loop of `execute_batch!`: execute chunks in order on one
connection; on success accumulate `affected_rows` and keep the last
non-zero `last_insert_id().unwrap_or(0)`; on the first failure reply with
the error and stop; after the last chunk reply with the accumulated
totals.  `i` is the index of the next chunk, used to address the backend
oracle. -/
def run_chunks (mk : List MValue → String) (backend : Nat → ChunkRes) (req_id : Int) :
    List (List MValue) → Nat → Nat → Nat → BatchTrace
  | [], _, total_affected, last_id =>
      ⟨[(req_id, serialize_result [] total_affected last_id)], []⟩
  | chunk :: rest, i, total_affected, last_id =>
      match backend i with
      | .err e =>
          ⟨[(req_id, encode_error ("Batch insert error: " ++ e))], [(mk chunk, chunk)]⟩
      | .ok a lid =>
          let current_id := lid.getD 0
          let t := run_chunks mk backend req_id rest (i + 1) (total_affected + a)
            (if current_id > 0 then current_id else last_id)
          ⟨t.responses, (mk chunk, chunk) :: t.statements⟩

/-- Macro `execute_batch!` of ffi.rs: read the declared row count (abort on a
short read), short-circuit zero rows, derive the column list from the
comma-joined column string, read exactly `row_count * column_count`
values, chunk them `max(1, 60000 / column_count)` rows at a time and run
the chunks. -/
def execute_batch (table_str columns_str : String) (data : List Nat)
    (backend : Nat → ChunkRes) (on_duplicate : Bool) (req_id : Int) : BatchTrace :=
  match read_u32 data with
  | (none, _) => ⟨[(req_id, encode_error "Failed to read row count")], []⟩
  | (some num_rows, rest) =>
      if num_rows = 0 then ⟨[(req_id, serialize_result [] 0 0)], []⟩
      else
        let column_names := split_columns columns_str
        let num_cols := column_names.length
        if num_cols = 0 then ⟨[(req_id, encode_error "No columns specified")], []⟩
        else
          let all_values := (parse_values (num_rows * num_cols) rest).1
          let base_placeholders := String.intercalate "," (column_names.map fun _ => "?")
          let update_clause :=
            if on_duplicate then
              " ON DUPLICATE KEY UPDATE " ++ String.intercalate ", "
                (column_names.map fun c => c ++ " = VALUES(" ++ c ++ ")")
            else ""
          let rows_per_chunk := max (60000 / num_cols) 1
          let chunks := chunksOf (rows_per_chunk * num_cols) all_values
          run_chunks
            (chunk_query table_str columns_str base_placeholders update_clause num_cols)
            backend req_id chunks 0 0 0

/-! ### Dispatch bridge and operation handlers (ffi.rs)

Each `extern "C"` handler is embedded as a pure function from its
arguments — raw pointers become explicit null/contents alternatives, the
lock-guarded connection slot becomes an `Option`, each awaited backend
step becomes an oracle argument — to the callback invocations it
performs, split into the synchronous phase (before `spawn`) and the
spawned-task phase. -/

/-- The callback invocations of one handler call, in order:
those performed synchronously before returning, and those performed by
the spawned task. -/
structure Phases where
  sync : List (Int × List Nat)
  task : List (Int × List Nat)
deriving DecidableEq

/-- All callback invocations of the call, in order. -/
def Phases.responses (p : Phases) : List (Int × List Nat) :=
  p.sync ++ p.task

/-- A `*const c_char` argument as `ptr_to_string` can see it. -/
inductive CStrArg
  | null
  | badUtf8
  | ok (s : String)

/-- Function `ptr_to_string` of utils.rs. -/
def ptr_to_string : CStrArg → Except String String
  | .null => .error "Null pointer"
  | .badUtf8 => .error "Invalid UTF-8"
  | .ok s => .ok s

/-- Backend outcome of one query/exec round trip: the resulting rows plus
the connection's `affected_rows()` and `last_insert_id()`, or the error. -/
inductive QueryOutcome
  | ok (rows : List RowM) (affected : Nat) (last_id : Option Nat)
  | err (msg : String)

/-- The success/failure reply of a row-returning operation. -/
def query_response (req_id : Int) (q : QueryOutcome) : Int × List Nat :=
  match q with
  | .ok rows a lid => (req_id, serialize_result rows a (lid.getD 0))
  | .err e => (req_id, encode_error e)

/-- The fixed-shape handle envelope of `mysql_pool_prepare` /
`mysql_pool_begin_transaction`: status 1, the handle value, then three
reserved zero fields. -/
def handle_buf (ptr : Nat) : List Nat :=
  1 :: (leBytes 8 ptr ++ leBytes 8 0 ++ leBytes 4 0 ++ leBytes 4 0)

/-- Handler `mysql_pool_query_raw` of ffi.rs. -/
def mysql_pool_query_raw (pool_null : Bool) (query : CStrArg) (req_id : Int)
    (get_conn : Except String Unit) (exec : QueryOutcome) : Phases :=
  if pool_null then ⟨[(req_id, encode_error "Invalid pointers")], []⟩
  else
    match ptr_to_string query with
    | .error e => ⟨[(req_id, encode_error e)], []⟩
    | .ok _ =>
        ⟨[], match get_conn with
             | .error e => [(req_id, encode_error e)]
             | .ok _ => [query_response req_id exec]⟩

/-- Handler `mysql_pool_query` of ffi.rs; the parameter buffer is decoded inside
the task and cannot fail. -/
def mysql_pool_query (pool_null : Bool) (query : CStrArg) (params_data : List Nat)
    (req_id : Int) (get_conn : Except String Unit) (exec : QueryOutcome) : Phases :=
  if pool_null then ⟨[(req_id, encode_error "Invalid pointers")], []⟩
  else
    match ptr_to_string query with
    | .error e => ⟨[(req_id, encode_error e)], []⟩
    | .ok _ =>
        let _params := parse_params_list params_data
        ⟨[], match get_conn with
             | .error e => [(req_id, encode_error e)]
             | .ok _ => [query_response req_id exec]⟩

/-- Handler `mysql_pool_prepare` of ffi.rs; `stmt_ptr` is the address of the boxed
statement handle the task creates on success. -/
def mysql_pool_prepare (pool_null : Bool) (query : CStrArg) (req_id : Int)
    (get_conn : Except String Unit) (prep : Except String Unit) (stmt_ptr : Nat) : Phases :=
  if pool_null then ⟨[(req_id, encode_error "Invalid pointers")], []⟩
  else
    match ptr_to_string query with
    | .error e => ⟨[(req_id, encode_error e)], []⟩
    | .ok _ =>
        ⟨[], match get_conn with
             | .error e => [(req_id, encode_error e)]
             | .ok _ =>
                 match prep with
                 | .error e => [(req_id, encode_error e)]
                 | .ok _ => [(req_id, handle_buf stmt_ptr)]⟩

/-- Handler `mysql_pool_begin_transaction` of ffi.rs; `start_tx` is the outcome of
`query_drop("START TRANSACTION")` and `conn_ptr` the address of the boxed
connection handle created on success. -/
def mysql_pool_begin_transaction (pool_null : Bool) (req_id : Int)
    (get_conn : Except String Unit) (start_tx : Except String Unit) (conn_ptr : Nat) : Phases :=
  if pool_null then ⟨[(req_id, encode_error "Invalid pointers")], []⟩
  else
    ⟨[], match get_conn with
         | .error e => [(req_id, encode_error e)]
         | .ok _ =>
             match start_tx with
             | .error e => [(req_id, encode_error e)]
             | .ok _ => [(req_id, handle_buf conn_ptr)]⟩

/-- Handler `mysql_conn_query_raw` of ffi.rs; `slot` is the content of the
lock-guarded optional connection at the time the task acquires the lock. -/
def mysql_conn_query_raw (conn_null : Bool) (query : CStrArg) (req_id : Int)
    (slot : Option Unit) (exec : QueryOutcome) : Phases :=
  if conn_null then ⟨[(req_id, encode_error "Invalid connection pointer")], []⟩
  else
    match ptr_to_string query with
    | .error e => ⟨[(req_id, encode_error e)], []⟩
    | .ok _ =>
        ⟨[], match slot with
             | some _ => [query_response req_id exec]
             | none => [(req_id, encode_error "Connection is closed")]⟩

/-- Handler `mysql_conn_query` of ffi.rs. -/
def mysql_conn_query (conn_null : Bool) (query : CStrArg) (params_data : List Nat)
    (req_id : Int) (slot : Option Unit) (exec : QueryOutcome) : Phases :=
  if conn_null then ⟨[(req_id, encode_error "Invalid connection pointer")], []⟩
  else
    match ptr_to_string query with
    | .error e => ⟨[(req_id, encode_error e)], []⟩
    | .ok _ =>
        let _params := parse_params_list params_data
        ⟨[], match slot with
             | some _ => [query_response req_id exec]
             | none => [(req_id, encode_error "Connection is closed")]⟩

/-- Handler `mysql_conn_commit` of ffi.rs; `commit_res` is the outcome of
`query_drop("COMMIT")`. -/
def mysql_conn_commit (conn_null : Bool) (req_id : Int) (slot : Option Unit)
    (commit_res : Except String Unit) : Phases :=
  if conn_null then ⟨[(req_id, encode_error "Invalid connection pointer")], []⟩
  else
    ⟨[], match slot with
         | some _ =>
             match commit_res with
             | .error e => [(req_id, encode_error e)]
             | .ok _ => [(req_id, serialize_result [] 0 0)]
         | none => [(req_id, encode_error "Connection is closed")]⟩

/-- Handler `mysql_conn_rollback` of ffi.rs; `rollback_res` is the outcome of
`query_drop("ROLLBACK")`. -/
def mysql_conn_rollback (conn_null : Bool) (req_id : Int) (slot : Option Unit)
    (rollback_res : Except String Unit) : Phases :=
  if conn_null then ⟨[(req_id, encode_error "Invalid connection pointer")], []⟩
  else
    ⟨[], match slot with
         | some _ =>
             match rollback_res with
             | .error e => [(req_id, encode_error e)]
             | .ok _ => [(req_id, serialize_result [] 0 0)]
         | none => [(req_id, encode_error "Connection is closed")]⟩

/-- The callback invocations of one batch handler call plus the
statements the batch handed to the backend. -/
structure BatchPhases where
  sync : List (Int × List Nat)
  task : List (Int × List Nat)
  statements : List (String × List MValue)
deriving DecidableEq

/-- All callback invocations of the batch call, in order. -/
def BatchPhases.responses (p : BatchPhases) : List (Int × List Nat) :=
  p.sync ++ p.task

/-- Handlers `mysql_conn_batch_insert` / `mysql_conn_batch_upsert` of ffi.rs
(they differ only in the `on_duplicate` flag passed to
`internal_conn_batch_execute`). -/
def mysql_conn_batch (conn_null : Bool) (table columns : CStrArg) (data : List Nat)
    (slot : Option Unit) (backend : Nat → ChunkRes) (on_duplicate : Bool)
    (req_id : Int) : BatchPhases :=
  if conn_null then ⟨[(req_id, encode_error "Invalid connection pointer")], [], []⟩
  else
    match ptr_to_string table with
    | .error e => ⟨[(req_id, encode_error e)], [], []⟩
    | .ok table_str =>
        match ptr_to_string columns with
        | .error e => ⟨[(req_id, encode_error e)], [], []⟩
        | .ok columns_str =>
            match slot with
            | none => ⟨[], [(req_id, encode_error "Connection is closed")], []⟩
            | some _ =>
                let t := execute_batch table_str columns_str data backend on_duplicate req_id
                ⟨[], t.responses, t.statements⟩

/-- Handlers `mysql_pool_batch_insert` / `mysql_pool_batch_upsert` of ffi.rs. -/
def mysql_pool_batch (pool_null : Bool) (table columns : CStrArg) (data : List Nat)
    (get_conn : Except String Unit) (backend : Nat → ChunkRes) (on_duplicate : Bool)
    (req_id : Int) : BatchPhases :=
  if pool_null then ⟨[(req_id, encode_error "Invalid pointers")], [], []⟩
  else
    match ptr_to_string table with
    | .error e => ⟨[(req_id, encode_error e)], [], []⟩
    | .ok table_str =>
        match ptr_to_string columns with
        | .error e => ⟨[(req_id, encode_error e)], [], []⟩
        | .ok columns_str =>
            match get_conn with
            | .error e => ⟨[], [(req_id, encode_error e)], []⟩
            | .ok _ =>
                let t := execute_batch table_str columns_str data backend on_duplicate req_id
                ⟨[], t.responses, t.statements⟩

/-- Handler `mysql_stmt_execute` of ffi.rs. -/
def mysql_stmt_execute (stmt_null : Bool) (params_data : List Nat) (req_id : Int)
    (slot : Option Unit) (exec : QueryOutcome) : Phases :=
  if stmt_null then ⟨[(req_id, encode_error "Invalid statement pointer")], []⟩
  else
    let _params := parse_params_list params_data
    ⟨[], match slot with
         | some _ => [query_response req_id exec]
         | none => [(req_id, encode_error "Connection is closed")]⟩

/-! ### Reader/writer lemmas -/

theorem readN_exact {l rest : List Nat} {n : Nat} (h : l.length = n) :
    readN n (l ++ rest) = (some l, rest) := by
  unfold readN
  rw [if_pos (by simp [← h]), List.take_left' h, List.drop_left' h]

theorem read_u32_app (v : Nat) (rest : List Nat) :
    read_u32 (leBytes 4 v ++ rest) = (some (v % 2 ^ 32), rest) := by
  unfold read_u32
  rw [readN_exact (leBytes_length 4 v)]
  simp [fromLeBytes_leBytes]

theorem read_u64_app (v : Nat) (rest : List Nat) :
    read_u64 (leBytes 8 v ++ rest) = (some (v % 2 ^ 64), rest) := by
  unfold read_u64
  rw [readN_exact (leBytes_length 8 v)]
  simp [fromLeBytes_leBytes]

theorem read_i64_app (v : Nat) (rest : List Nat) :
    read_i64 (leBytes 8 v ++ rest) = (some (decode_i64 (v % 2 ^ 64)), rest) := by
  unfold read_i64
  rw [readN_exact (leBytes_length 8 v)]
  simp [fromLeBytes_leBytes]

theorem read_f64_app (v : Nat) (rest : List Nat) :
    read_f64 (leBytes 8 v ++ rest) = (some (v % 2 ^ 64), rest) := by
  unfold read_f64
  rw [readN_exact (leBytes_length 8 v)]
  simp [fromLeBytes_leBytes]

theorem read_blob_app {bs : List Nat} (h : bs.length < 2 ^ 32) (rest : List Nat) :
    read_blob (write_blob bs ++ rest) = (some bs, rest) := by
  unfold read_blob write_blob
  rw [List.append_assoc, read_u32_app, Nat.mod_eq_of_lt h]
  simp only [List.length_append, Nat.le_add_right, if_pos, List.take_left, List.drop_left]

theorem decode_encode_i64 {i : Int} (h1 : -(2 ^ 63) ≤ i) (h2 : i < 2 ^ 63) :
    decode_i64 (i % 2 ^ 64).toNat = i := by
  have h64 : ((2 : Int) ^ 64) = 18446744073709551616 := by norm_num
  unfold decode_i64
  rw [h64]
  split <;> omega

/-! ### C2: parameter round-trip -/

theorem parse_value_encode {v : WireValue} (h : v.representable = true) (rest : List Nat) :
    parse_value (encode_value v ++ rest) = (v.denote, rest) := by
  cases v with
  | null => rfl
  | int i =>
      simp only [WireValue.representable, decide_eq_true_eq] at h
      have hlt : ((i % 2 ^ 64 : Int)).toNat < 2 ^ 64 := by omega
      simp only [encode_value, List.cons_append, parse_value, read_u8,
        read_i64_app, Nat.mod_eq_of_lt hlt, WireValue.denote]
      rw [decode_encode_i64 h.1 h.2]
  | float b =>
      simp only [WireValue.representable, decide_eq_true_eq] at h
      simp only [encode_value, List.cons_append, parse_value, read_u8,
        read_f64_app, Nat.mod_eq_of_lt h, WireValue.denote]
  | str bs =>
      simp only [WireValue.representable, Bool.and_eq_true, decide_eq_true_eq] at h
      simp only [encode_value, List.cons_append, parse_value, read_u8,
        read_blob_app h.1, WireValue.denote]
  | blob bs =>
      simp only [WireValue.representable, Bool.and_eq_true, decide_eq_true_eq] at h
      simp only [encode_value, List.cons_append, parse_value, read_u8,
        read_blob_app h.1, WireValue.denote]

theorem parse_values_encode {vs : List WireValue}
    (h : ∀ v ∈ vs, v.representable = true) (rest : List Nat) :
    parse_values vs.length (vs.flatMap encode_value ++ rest) =
      (vs.map WireValue.denote, rest) := by
  induction vs with
  | nil => rfl
  | cons v vs ih =>
      simp only [List.flatMap_cons, List.append_assoc, List.length_cons, parse_values,
        parse_value_encode (h v (by simp)) (vs.flatMap encode_value ++ rest)]
      rw [ih fun w hw => h w (by simp [hw])]
      simp

/-- C2: encoding a Parameter List of representable values per the §4.1
layout (`u32 count`, then per value `u8 tag || payload`, bytes under
either tag 3 or tag 4) and decoding it with `parse_params_list` yields
exactly the original values in order (tags 3 and 4 both denoting the
`Bytes` value). -/
theorem param_list_roundtrip (vs : List WireValue)
    (hrep : ∀ v ∈ vs, v.representable = true) (hcount : vs.length < 2 ^ 32) :
    parse_params_list (encode_params vs) = vs.map WireValue.denote := by
  have h2 := parse_values_encode hrep ([] : List Nat)
  rw [List.append_nil] at h2
  unfold parse_params_list encode_params
  rw [if_neg (by simp [leBytes])]
  rw [read_u32_app, Nat.mod_eq_of_lt hcount]
  simp [h2]

/-- Witness for C2 at a concrete parameter list exercising every tag,
an empty blob and a negative integer. -/
theorem param_list_roundtrip_witness :
    parse_params_list (encode_params
        [.null, .int (-5), .float 77, .str [], .blob [255, 0, 1]]) =
      [MValue.null, .int (-5), .double 77, .bytes [], .bytes [255, 0, 1]] := by
  have h := param_list_roundtrip
    [.null, .int (-5), .float 77, .str [], .blob [255, 0, 1]]
    (by decide) (by decide)
  simpa using h

/-! ### C9: defensive decoding of a single value -/

/-- C9: decoding one parameter value treats an unrecognized tag byte, a
missing tag byte, or a truncated payload as `NULL` (never an error, the
decoder being total), and decodes tags 3 (String) and 4 (Blob)
identically, both as a `Bytes` value. -/
theorem parse_value_defensive :
    (∀ t r, 4 < t → t < 256 → parse_value (t :: r) = (.null, r)) ∧
    parse_value [] = (.null, []) ∧
    (∀ r, r.length < 8 → parse_value (1 :: r) = (.null, r)) ∧
    (∀ r, r.length < 8 → parse_value (2 :: r) = (.null, r)) ∧
    (∀ r, r.length < 4 → parse_value (3 :: r) = (.null, r)) ∧
    (∀ r len r', read_u32 r = (some len, r') → r'.length < len →
      parse_value (3 :: r) = (.null, r')) ∧
    (∀ r, parse_value (3 :: r) = parse_value (4 :: r)) := by
  refine ⟨?_, rfl, ?_, ?_, ?_, ?_, ?_⟩
  · intro t r ht _
    obtain ⟨n, rfl⟩ : ∃ n, t = n + 5 := ⟨t - 5, by omega⟩
    rfl
  · intro r hr
    simp only [parse_value, read_u8, read_i64, readN]
    rw [if_neg (by omega : ¬ 8 ≤ r.length)]
  · intro r hr
    simp only [parse_value, read_u8, read_f64, readN]
    rw [if_neg (by omega : ¬ 8 ≤ r.length)]
  · intro r hr
    simp only [parse_value, read_u8, read_blob, read_u32, readN]
    rw [if_neg (by omega : ¬ 4 ≤ r.length)]
  · intro r len r' hread hshort
    simp only [parse_value, read_u8, read_blob, hread]
    rw [if_neg (by omega : ¬ len ≤ r'.length)]
  · intro r
    rfl

/-- Witness for C9: tag 9 with leftover bytes, a truncated integer
payload, a truncated blob length, and a truncated blob payload. -/
theorem parse_value_defensive_witness :
    parse_value [9, 1, 2] = (.null, [1, 2]) ∧
    parse_value [1, 7] = (.null, [7]) ∧
    parse_value [3, 7] = (.null, [7]) ∧
    parse_value [3, 5, 0, 0, 0, 1, 2] = (.null, [1, 2]) := by
  refine ⟨parse_value_defensive.1 9 [1, 2] (by decide) (by decide),
    parse_value_defensive.2.2.1 [7] (by decide),
    parse_value_defensive.2.2.2.2.1 [7] (by decide),
    parse_value_defensive.2.2.2.2.2.1 [5, 0, 0, 0, 1, 2] 5 [1, 2] (by decide) (by decide)⟩

/-! ### C4: zero-row result sets -/

theorem read_u32_exact (v : Nat) : read_u32 (leBytes 4 v) = (some (v % 2 ^ 32), []) := by
  simpa using read_u32_app v []

/-- C4 counterexample: at the concrete zero-row input (affected = 3,
last id = 4) the emitted header has column_count 0; `serialize_result`
receives no statement metadata at all (column metadata is read from the
first row), so a zero-row set can never carry a column_count above 0. -/
theorem serialize_empty_colcount_zero :
    decode_header (serialize_result [] 3 4) = some (1, 3, 4, 0, 0, []) := by
  decide

/-- C4 (amended): serializing a zero-row result set still emits the full
five-field Ok header — status 1, the correct `affected_rows` and
`last_insert_id` (mod `2^64`, their `u64` width), `column_count = 0` and
`row_count = 0` — and the buffer is exactly the 25-byte header, never a
degenerate envelope. -/
theorem serialize_empty_rows (a l : Nat) :
    decode_header (serialize_result [] a l) =
      some (1, a % 2 ^ 64, l % 2 ^ 64, 0, 0, []) ∧
    (serialize_result [] a l).length = 25 := by
  constructor
  · simp only [serialize_result, List.cons_append, List.append_assoc]
    simp only [decode_header, read_u8, read_u64_app, read_u32_app, read_u32_exact]
    norm_num
  · simp [serialize_result, leBytes_length]

/-! ### C10: ragged rows serialize as exactly `column_count` cells -/

theorem decode_cells_list (cs : List Cell) (h : ∀ c ∈ cs, cell_wf c = true)
    (rest : List Nat) :
    decode_cells cs.length (cs.flatMap cell_bytes ++ rest) =
      some (cs.map cell_payload, rest) := by
  induction cs with
  | nil => rfl
  | cons c cs ih =>
      have hx := ih fun d hd => h d (by simp [hd])
      match hp : cell_payload c with
      | none =>
          simp only [List.flatMap_cons, List.append_assoc, List.length_cons, cell_bytes, hp,
            List.cons_append, List.nil_append, decode_cells, read_u8, hx, List.map_cons]
      | some p =>
          have hwf : p.length < 2 ^ 32 := by
            have := h c (by simp)
            rw [cell_wf, hp] at this
            exact of_decide_eq_true this
          simp only [List.flatMap_cons, List.append_assoc, List.length_cons, cell_bytes, hp,
            List.cons_append, decode_cells, read_u8, read_blob_app hwf, hx, List.map_cons]

/-- C10: every serialized row carries exactly `column_count` cells — the
row loop pads indices beyond the row's own length with SQL NULL (present
byte 0) and never fails: decoding the emitted cells gives the
`column_count`-long list of per-cell payloads of `row[i]` (with `NULL`
substituted past the row's end), whatever the raggedness. -/
theorem serialize_row_width (cols_len : Nat) (cells : List Cell) (rest : List Nat)
    (h : ∀ c ∈ cells, cell_wf c = true) :
    decode_cells cols_len (serialize_row_cells cols_len cells ++ rest) =
      some ((List.range cols_len).map (fun i => cell_payload (cells.getD i .null)), rest) ∧
    ((List.range cols_len).map (fun i => cell_payload (cells.getD i .null))).length = cols_len ∧
    ∀ i, cells.length ≤ i → cell_payload (cells.getD i .null) = none := by
  refine ⟨?_, by simp, ?_⟩
  · have hwf : ∀ c ∈ (List.range cols_len).map (fun i => cells.getD i Cell.null),
        cell_wf c = true := by
      intro c hc
      simp only [List.mem_map, List.mem_range] at hc
      obtain ⟨i, _, rfl⟩ := hc
      rcases Nat.lt_or_ge i cells.length with hi | hi
      · rw [List.getD_eq_getElem cells Cell.null hi]
        exact h _ (List.getElem_mem hi)
      · rw [List.getD_eq_default cells Cell.null hi]
        rfl
    have hd := decode_cells_list ((List.range cols_len).map (fun i => cells.getD i Cell.null))
      hwf rest
    rw [List.length_map, List.length_range, List.flatMap_map, List.map_map] at hd
    exact hd
  · intro i hi
    rw [List.getD_eq_default cells Cell.null hi]
    rfl

/-- Witness for C10 at a ragged concrete row: one cell against three
columns decodes as the cell followed by two SQL NULLs. -/
theorem serialize_row_width_witness :
    decode_cells 3 (serialize_row_cells 3 [Cell.int 1] ++ [9, 9]) =
      some ([some (leBytes 8 1), none, none], [9, 9]) := by
  have h := serialize_row_width 3 [Cell.int 1] [9, 9] (by decide)
  rw [h.1]
  decide

/-! ### Chunker lemmas -/

theorem parse_values_length (n : Nat) (l : List Nat) :
    (parse_values n l).1.length = n := by
  induction n generalizing l with
  | zero => rfl
  | succ n ih => simp [parse_values, ih]

theorem split_comma_ne_nil (l : List Char) : split_comma l ≠ [] := by
  induction l with
  | nil => simp [split_comma]
  | cons c rest ih =>
      rw [split_comma]
      split
      · simp
      · cases h : split_comma rest <;> simp

theorem split_columns_pos (s : String) : 0 < (split_columns s).length := by
  rw [split_columns, List.length_map]
  exact List.length_pos.mpr (split_comma_ne_nil s.data)

theorem chunksGo_fuel {α : Type} (k : Nat) :
    ∀ (fuel : Nat) (l : List α), l.length ≤ fuel →
      chunksGo k fuel l = chunksGo k l.length l := by
  intro fuel
  induction fuel using Nat.strong_induction_on with
  | _ fuel ih =>
      intro l hl
      match fuel, l with
      | 0, [] => rfl
      | f + 1, [] => rfl
      | 0, a :: t => simp at hl
      | f + 1, a :: t =>
          match k with
          | 0 => rfl
          | k + 1 =>
              simp only [chunksGo, List.length_cons]
              have hdl : ((a :: t).drop (k + 1)).length ≤ t.length := by
                simp only [List.length_drop, List.length_cons]
                omega
              rw [ih f (by omega) _ (by simp at hl; omega)]
              rw [ih t.length (by simp at hl; omega) _ hdl]

theorem chunksOf_nil {α : Type} (k : Nat) : chunksOf k ([] : List α) = [] := rfl

theorem chunksOf_cons_succ {α : Type} (k : Nat) (a : α) (l : List α) :
    chunksOf (k + 1) (a :: l) =
      (a :: l).take (k + 1) :: chunksOf (k + 1) ((a :: l).drop (k + 1)) := by
  show chunksGo (k + 1) (l.length + 1) (a :: l) = _
  simp only [chunksGo]
  rw [chunksGo_fuel (k + 1) l.length _
    (by simp only [List.length_drop, List.length_cons]; omega)]
  rfl

/-- Length induction tailored to `chunksOf`: a property holds of every
list once it holds of `[]` and is preserved from `l.drop k` to a
non-empty `l`. -/
theorem chunksOf_rec {α : Type} {P : List α → Prop} (k : Nat) (hk : 0 < k)
    (h0 : P []) (hstep : ∀ l : List α, l ≠ [] → P (l.drop k) → P l) :
    ∀ l, P l := by
  have key : ∀ n (l : List α), l.length ≤ n → P l := by
    intro n
    induction n with
    | zero =>
        intro l hl
        cases l with
        | nil => exact h0
        | cons a t => simp at hl
    | succ n ih =>
        intro l hl
        cases l with
        | nil => exact h0
        | cons a t =>
            refine hstep _ (by simp) (ih _ ?_)
            simp only [List.length_drop, List.length_cons] at hl ⊢
            omega
  exact fun l => key l.length l le_rfl

theorem div_two_chunk {k x : Nat} (hk : 0 < k) (h1 : k ≤ x) (h2 : x < 2 * k) :
    x / k = 1 := by
  obtain ⟨y, rfl⟩ : ∃ y, x = y + k := ⟨x - k, by omega⟩
  rw [Nat.add_div_right _ hk, Nat.div_eq_of_lt (by omega)]

theorem ceil_succ_chunk {k n : Nat} (hk : 0 < k) (hn : 1 ≤ n) :
    (n + k - 1) / k = (n - k + k - 1) / k + 1 := by
  rcases le_or_lt n k with h | h
  · have hnk : n - k = 0 := by omega
    rw [hnk]
    rw [Nat.div_eq_of_lt (show 0 + k - 1 < k by omega)]
    rw [div_two_chunk hk (show k ≤ n + k - 1 by omega) (show n + k - 1 < 2 * k by omega)]
  · have e : n + k - 1 = (n - k + k - 1) + k := by omega
    rw [e, Nat.add_div_right _ hk]

theorem chunksOf_length {α : Type} {k : Nat} (hk : 0 < k) (l : List α) :
    (chunksOf k l).length = (l.length + k - 1) / k := by
  obtain ⟨k', rfl⟩ : ∃ k', k = k' + 1 := ⟨k - 1, by omega⟩
  refine chunksOf_rec
    (P := fun l : List α => (chunksOf (k' + 1) l).length = (l.length + (k' + 1) - 1) / (k' + 1))
    (k' + 1) hk ?_ ?_ l
  · show (chunksOf (k' + 1) ([] : List α)).length = _
    rw [chunksOf_nil]
    simp [Nat.div_eq_of_lt (show k' < k' + 1 by omega)]
  · intro l hne ih
    obtain ⟨a, t, rfl⟩ := List.exists_cons_of_ne_nil hne
    show (chunksOf (k' + 1) (a :: t)).length = _
    rw [chunksOf_cons_succ, List.length_cons, ih, List.length_drop]
    have hstep := ceil_succ_chunk (n := (a :: t).length) hk (by simp)
    rw [hstep]

theorem chunksOf_flatten {α : Type} {k : Nat} (hk : 0 < k) (l : List α) :
    (chunksOf k l).flatten = l := by
  obtain ⟨k', rfl⟩ : ∃ k', k = k' + 1 := ⟨k - 1, by omega⟩
  refine chunksOf_rec
    (P := fun l : List α => (chunksOf (k' + 1) l).flatten = l)
    (k' + 1) hk ?_ ?_ l
  · show (chunksOf (k' + 1) ([] : List α)).flatten = _
    rw [chunksOf_nil]; rfl
  · intro l hne ih
    obtain ⟨a, t, rfl⟩ := List.exists_cons_of_ne_nil hne
    show (chunksOf (k' + 1) (a :: t)).flatten = _
    rw [chunksOf_cons_succ, List.flatten_cons, ih, List.take_append_drop]

theorem chunksOf_ne_nil {α : Type} {k : Nat} (hk : 0 < k) {l : List α}
    (hne : l ≠ []) : chunksOf k l ≠ [] := by
  obtain ⟨k', rfl⟩ : ∃ k', k = k' + 1 := ⟨k - 1, by omega⟩
  obtain ⟨a, t, rfl⟩ := List.exists_cons_of_ne_nil hne
  rw [chunksOf_cons_succ]
  simp

theorem chunksOf_mem {α : Type} {k : Nat} (hk : 0 < k) (l : List α) :
    ∀ c ∈ chunksOf k l, 0 < c.length ∧ c.length ≤ k := by
  obtain ⟨k', rfl⟩ : ∃ k', k = k' + 1 := ⟨k - 1, by omega⟩
  refine chunksOf_rec
    (P := fun l : List α => ∀ c ∈ chunksOf (k' + 1) l, 0 < c.length ∧ c.length ≤ k' + 1)
    (k' + 1) hk ?_ ?_ l
  · show ∀ c ∈ chunksOf (k' + 1) ([] : List α), _
    rw [chunksOf_nil]; simp
  · intro l hne ih
    obtain ⟨a, t, rfl⟩ := List.exists_cons_of_ne_nil hne
    show ∀ c ∈ chunksOf (k' + 1) (a :: t), _
    rw [chunksOf_cons_succ]
    intro c hc
    rcases List.mem_cons.mp hc with rfl | hc
    · simp only [List.length_take, List.length_cons]
      omega
    · exact ih c hc

theorem chunksOf_dropLast {α : Type} {k : Nat} (hk : 0 < k) (l : List α) :
    ∀ c ∈ (chunksOf k l).dropLast, c.length = k := by
  obtain ⟨k', rfl⟩ : ∃ k', k = k' + 1 := ⟨k - 1, by omega⟩
  refine chunksOf_rec
    (P := fun l : List α => ∀ c ∈ (chunksOf (k' + 1) l).dropLast, c.length = k' + 1)
    (k' + 1) hk ?_ ?_ l
  · show ∀ c ∈ (chunksOf (k' + 1) ([] : List α)).dropLast, _
    rw [chunksOf_nil]; simp
  · intro l hne ih
    obtain ⟨a, t, rfl⟩ := List.exists_cons_of_ne_nil hne
    show ∀ c ∈ (chunksOf (k' + 1) (a :: t)).dropLast, _
    rw [chunksOf_cons_succ]
    by_cases hd : (a :: t).drop (k' + 1) = []
    · rw [hd, chunksOf_nil]
      simp
    · rw [List.dropLast_cons_of_ne_nil (chunksOf_ne_nil hk hd)]
      intro c hc
      rcases List.mem_cons.mp hc with rfl | hc
      · have : k' + 1 < (a :: t).length := by
          by_contra hcon
          exact hd (List.drop_eq_nil_of_le (by omega))
        simp only [List.length_take]
        omega
      · exact ih c hc

theorem ceil_div_mul {b c : Nat} (hb : 0 < b) (hc : 0 < c) (a : Nat) :
    (a * c + b * c - 1) / (b * c) = (a + b - 1) / b := by
  obtain ⟨q, r, hr, rfl⟩ : ∃ q r, r < b ∧ a = b * q + r :=
    ⟨a / b, a % b, Nat.mod_lt _ hb, (Nat.div_add_mod a b).symm⟩
  have hbc : 0 < b * c := Nat.mul_pos hb hc
  have e1 : (b * q + r) * c = b * c * q + r * c := by ring
  rcases Nat.eq_zero_or_pos r with hr0 | hr0
  · subst hr0
    have e2 : (b * q + 0) * c + b * c - 1 = b * c * q + (b * c - 1) := by
      rw [e1]; omega
    rw [e2, Nat.mul_add_div hbc, Nat.div_eq_of_lt (by omega)]
    have e3 : b * q + 0 + b - 1 = b * q + (b - 1) := by omega
    rw [e3, Nat.mul_add_div hb, Nat.div_eq_of_lt (by omega)]
  · have hrc : 0 < r * c := Nat.mul_pos hr0 hc
    have hrcb : r * c < b * c := (Nat.mul_lt_mul_right hc).mpr hr
    have e2 : (b * q + r) * c + b * c - 1 = b * c * q + (r * c + b * c - 1) := by
      rw [e1]; omega
    rw [e2, Nat.mul_add_div hbc, div_two_chunk hbc (by omega) (by omega)]
    have e3 : b * q + r + b - 1 = b * q + (r + b - 1) := by omega
    rw [e3, Nat.mul_add_div hb, div_two_chunk hb (by omega) (by omega)]

theorem run_chunks_ok_statements (mk : List MValue → String) (aff : Nat → Nat)
    (lid : Nat → Option Nat) (rid : Int) (cs : List (List MValue)) :
    ∀ (i ta li : Nat),
      (run_chunks mk (fun j => .ok (aff j) (lid j)) rid cs i ta li).statements
        = cs.map fun c => (mk c, c) := by
  induction cs with
  | nil => intro i ta li; rfl
  | cons c cs ih => intro i ta li; simp [run_chunks, ih]

/-- C5: for a batch of `N > 0` declared rows and the derived `C > 0`
columns, the chunker computes `rows_per_chunk = max(1, 60000 / C)`,
splits the flat value list into consecutive chunks of
`rows_per_chunk * C` values — every non-final chunk full, every chunk
non-empty and at most that size, and the chunks concatenating back to the
values — and, when every chunk succeeds, hands exactly
`ceil(N / rows_per_chunk)` statements to the backend. -/
theorem batch_chunk_count (table cols : String) (data : List Nat)
    (aff : Nat → Nat) (lid : Nat → Option Nat) (dup : Bool) (req_id : Int)
    (N C rpc : Nat) (rest : List Nat) (vals : List MValue)
    (hread : read_u32 data = (some N, rest)) (hN : 0 < N)
    (hC : C = (split_columns cols).length)
    (hrpc : rpc = max (60000 / C) 1)
    (hvals : vals = (parse_values (N * C) rest).1) :
    (execute_batch table cols data (fun i => .ok (aff i) (lid i)) dup req_id).statements.length
        = (N + rpc - 1) / rpc ∧
    (chunksOf (rpc * C) vals).flatten = vals ∧
    (∀ c ∈ (chunksOf (rpc * C) vals).dropLast, c.length = rpc * C) ∧
    (∀ c ∈ chunksOf (rpc * C) vals, 0 < c.length ∧ c.length ≤ rpc * C) := by
  have hCpos : 0 < C := hC ▸ split_columns_pos cols
  have hrpcpos : 0 < rpc := by rw [hrpc]; omega
  have hk : 0 < rpc * C := Nat.mul_pos hrpcpos hCpos
  refine ⟨?_, chunksOf_flatten hk vals, chunksOf_dropLast hk vals, chunksOf_mem hk vals⟩
  simp only [execute_batch, hread]
  rw [if_neg (by omega)]
  rw [if_neg (by omega : ¬ (split_columns cols).length = 0)]
  rw [run_chunks_ok_statements, List.length_map]
  rw [← hC, ← hrpc]
  rw [chunksOf_length hk, parse_values_length]
  exact ceil_div_mul hrpcpos hCpos N

/-- Witness for C5: two rows over columns `"a,b"` give one chunk of four
values and a single statement. -/
theorem batch_chunk_count_witness :
    (execute_batch "t" "a,b" [2, 0, 0, 0] (fun i => .ok 0 none) false 0).statements.length
        = 1 := by
  have h := batch_chunk_count "t" "a,b" [2, 0, 0, 0] (fun _ => 0) (fun _ => none) false 0
    2 2 30000 [] ((parse_values 4 []).1) (by decide) (by decide) (by decide) (by decide) rfl
  simpa using h.1

/-! ### C6: batch result accumulation -/

/-- The last non-zero entry of a list (0 when there is none): the
specification-side description of how `last_insert_id` is kept across
chunks. -/
def last_nonzero : List Nat → Nat
  | [] => 0
  | x :: r => if 0 < last_nonzero r then last_nonzero r else x

/-- Function `last_nonzero` continued from a carried value: the carried value wins
only when the list holds no non-zero entry. -/
def last_nonzero_or (l : List Nat) (li : Nat) : Nat :=
  if 0 < last_nonzero l then last_nonzero l else li

theorem last_nonzero_or_cons (d : Nat) (l : List Nat) (li : Nat) :
    last_nonzero_or (d :: l) li = last_nonzero_or l (if 0 < d then d else li) := by
  simp only [last_nonzero_or, last_nonzero]
  split_ifs <;> omega

theorem last_nonzero_or_zero (l : List Nat) : last_nonzero_or l 0 = last_nonzero l := by
  simp only [last_nonzero_or]
  split_ifs with h <;> omega

/-- Lemma form: `last_nonzero` really is the last positive element (or 0 when there
is none). -/
theorem last_nonzero_eq_filter (l : List Nat) :
    last_nonzero l = ((l.filter fun x => decide (0 < x)).getLast?).getD 0 := by
  induction l with
  | nil => rfl
  | cons x r ih =>
      rw [last_nonzero, ih, List.filter_cons]
      cases hfr : r.filter fun x => decide (0 < x) with
      | nil =>
          by_cases hx : 0 < x <;> simp [hfr, hx] <;> omega
      | cons y t =>
          have hpos : 0 < ((y :: t).getLast?).getD 0 := by
            have hmem : (y :: t).getLast (by simp) ∈ y :: t := List.getLast_mem (by simp)
            have hall : ∀ z ∈ y :: t, (0 < z : Prop) := by
              intro z hz
              rw [← hfr] at hz
              exact of_decide_eq_true (List.mem_filter.mp hz).2
            rw [List.getLast?_eq_getLast _ (by simp)]
            simpa using hall _ hmem
          by_cases hx : 0 < x <;> simp [hx, hpos, List.getLast?_cons_cons]

/-- One index-shifted step of the range list used below. -/
theorem range_map_shift (f : Nat → Nat) (n i : Nat) :
    (List.range (n + 1)).map (fun j => f (i + j))
      = f i :: (List.range n).map fun j => f (i + 1 + j) := by
  rw [List.range_succ_eq_map, List.map_cons, List.map_map]
  refine congrArg _ ?_
  · refine List.map_congr_left fun j _ => ?_
    simp only [Function.comp_apply, Nat.succ_eq_add_one]
    refine congrArg f (by omega)

theorem run_chunks_all_ok (mk : List MValue → String) (aff : Nat → Nat)
    (lid : Nat → Option Nat) (rid : Int) (cs : List (List MValue)) :
    ∀ (i ta li : Nat),
      (run_chunks mk (fun j => .ok (aff j) (lid j)) rid cs i ta li).responses
        = [(rid, serialize_result []
            (ta + (((List.range cs.length).map fun j => aff (i + j)).sum))
            (last_nonzero_or ((List.range cs.length).map fun j => (lid (i + j)).getD 0) li))] := by
  induction cs with
  | nil =>
      intro i ta li
      simp [run_chunks, BatchTrace.mk.injEq, last_nonzero_or, last_nonzero]
  | cons c cs ih =>
      intro i ta li
      simp only [run_chunks, List.length_cons]
      rw [range_map_shift aff, range_map_shift (fun j => (lid j).getD 0)]
      rw [List.sum_cons, last_nonzero_or_cons]
      have hv := ih (i + 1) (ta + aff i)
        (if 0 < (lid i).getD 0 then (lid i).getD 0 else li)
      have hA : ta + aff i + (((List.range cs.length).map fun j => aff (i + 1 + j)).sum)
          = ta + (aff i + ((List.range cs.length).map fun j => aff (i + 1 + j)).sum) := by
        omega
      rw [hA] at hv
      simp only [gt_iff_lt]
      exact hv

/-- C6: when every chunk of a batch succeeds, the single reply reports as
`affected_rows` the sum of the per-chunk backend `affected_rows` in
execution order, and as `last_insert_id` the last non-zero
`last_insert_id` observed across chunks (a chunk reporting 0 or no id
does not overwrite an earlier non-zero one; with no non-zero id the
result is 0). -/
theorem batch_success_totals (mk : List MValue → String) (aff : Nat → Nat)
    (lid : Nat → Option Nat) (req_id : Int) (chunks : List (List MValue)) :
    (run_chunks mk (fun j => .ok (aff j) (lid j)) req_id chunks 0 0 0).responses
      = [(req_id, serialize_result []
          (((List.range chunks.length).map aff).sum)
          (last_nonzero ((List.range chunks.length).map fun j => (lid j).getD 0)))] := by
  have h := run_chunks_all_ok mk aff lid req_id chunks 0 0 0
  rw [h]
  rw [show ((List.range chunks.length).map fun j => aff (0 + j))
      = (List.range chunks.length).map aff from
    List.map_congr_left fun j _ => congrArg aff (Nat.zero_add j)]
  rw [show ((List.range chunks.length).map fun j => (lid (0 + j)).getD 0)
      = (List.range chunks.length).map fun j => (lid j).getD 0 from
    List.map_congr_left fun j _ => by rw [Nat.zero_add]]
  rw [last_nonzero_or_zero, Nat.zero_add]

/-! ### C7: zero declared rows -/

theorem read_u32_zeros (rest : List Nat) :
    read_u32 (0 :: 0 :: 0 :: 0 :: rest) = (some 0, rest) := by
  simpa using read_u32_app 0 rest

/-- C7: a batch whose declared row count is 0 (first four buffer bytes
zero) replies immediately with the Ok envelope `affected_rows = 0`,
`last_insert_id = 0`, executes no statement — at the chunker itself and
through both the connection-handle and pool-handle batch entry points. -/
theorem batch_zero_rows :
    (∀ (table cols : String) (rest : List Nat) (backend : Nat → ChunkRes)
        (dup : Bool) (req_id : Int),
      execute_batch table cols (0 :: 0 :: 0 :: 0 :: rest) backend dup req_id
        = ⟨[(req_id, serialize_result [] 0 0)], []⟩) ∧
    (∀ (t c : String) (rest : List Nat) (backend : Nat → ChunkRes)
        (dup : Bool) (req_id : Int),
      (mysql_conn_batch false (.ok t) (.ok c) (0 :: 0 :: 0 :: 0 :: rest)
          (some ()) backend dup req_id).responses
        = [(req_id, serialize_result [] 0 0)] ∧
      (mysql_conn_batch false (.ok t) (.ok c) (0 :: 0 :: 0 :: 0 :: rest)
          (some ()) backend dup req_id).statements = []) ∧
    (∀ (t c : String) (rest : List Nat) (backend : Nat → ChunkRes)
        (dup : Bool) (req_id : Int),
      (mysql_pool_batch false (.ok t) (.ok c) (0 :: 0 :: 0 :: 0 :: rest)
          (.ok ()) backend dup req_id).responses
        = [(req_id, serialize_result [] 0 0)] ∧
      (mysql_pool_batch false (.ok t) (.ok c) (0 :: 0 :: 0 :: 0 :: rest)
          (.ok ()) backend dup req_id).statements = []) ∧
    decode_header (serialize_result [] 0 0) = some (1, 0, 0, 0, 0, []) := by
  have hbatch : ∀ (table cols : String) (rest : List Nat) (backend : Nat → ChunkRes)
      (dup : Bool) (req_id : Int),
      execute_batch table cols (0 :: 0 :: 0 :: 0 :: rest) backend dup req_id
        = ⟨[(req_id, serialize_result [] 0 0)], []⟩ := by
    intro table cols rest backend dup req_id
    simp [execute_batch, read_u32_zeros]
  refine ⟨hbatch, ?_, ?_, by decide⟩
  · intro t c rest backend dup req_id
    constructor <;>
      simp [mysql_conn_batch, ptr_to_string, BatchPhases.responses, hbatch]
  · intro t c rest backend dup req_id
    constructor <;>
      simp [mysql_pool_batch, ptr_to_string, BatchPhases.responses, hbatch]

/-! ### Error-envelope discrimination lemmas -/

theorem strBytes_append (s t : String) : strBytes (s ++ t) = strBytes s ++ strBytes t := by
  simp [strBytes, String.data_append]

theorem encode_error_drop (m : String) : (encode_error m).drop 5 = strBytes m := by
  show (0 :: (leBytes 4 (strBytes m).length ++ strBytes m)).drop 5 = _
  rw [List.drop_succ_cons]
  exact List.drop_left' (leBytes_length 4 _)

theorem encode_error_inj {m1 m2 : String} (h : encode_error m1 = encode_error m2) :
    strBytes m1 = strBytes m2 := by
  rw [← encode_error_drop m1, ← encode_error_drop m2, h]

theorem serialize_ne_error (rows : List RowM) (a b : Nat) (m : String) :
    serialize_result rows a b ≠ encode_error m := by
  cases rows <;> simp [serialize_result, encode_error]

theorem batch_err_ne_nocols (e : String) :
    encode_error ("Batch insert error: " ++ e) ≠ encode_error "No columns specified" := by
  intro h
  have h2 := encode_error_inj h
  rw [strBytes_append] at h2
  have h4 := congrArg (List.take 20) h2
  rw [List.take_left' (by decide : (strBytes "Batch insert error: ").length = 20)] at h4
  rw [List.take_of_length_le (by decide : (strBytes "No columns specified").length ≤ 20)] at h4
  exact absurd h4 (by decide)

/-! ### Response shapes of the batch loop -/

theorem run_chunks_single (mk : List MValue → String) (backend : Nat → ChunkRes)
    (rid : Int) (cs : List (List MValue)) :
    ∀ (i ta li : Nat), ∃ b,
      (run_chunks mk backend rid cs i ta li).responses = [(rid, b)] := by
  induction cs with
  | nil => exact fun i ta li => ⟨_, rfl⟩
  | cons c cs ih =>
      intro i ta li
      simp only [run_chunks]
      cases backend i with
      | err e => exact ⟨_, rfl⟩
      | ok a lid => exact ih (i + 1) _ _

theorem run_chunks_shape (mk : List MValue → String) (backend : Nat → ChunkRes)
    (rid : Int) (cs : List (List MValue)) :
    ∀ (i ta li : Nat),
      (∃ a b, (run_chunks mk backend rid cs i ta li).responses
          = [(rid, serialize_result [] a b)]) ∨
      (∃ e, (run_chunks mk backend rid cs i ta li).responses
          = [(rid, encode_error ("Batch insert error: " ++ e))]) := by
  induction cs with
  | nil => exact fun i ta li => Or.inl ⟨ta, li, rfl⟩
  | cons c cs ih =>
      intro i ta li
      simp only [run_chunks]
      cases backend i with
      | err e => exact Or.inr ⟨e, rfl⟩
      | ok a lid => exact ih (i + 1) _ _

theorem execute_batch_single (table cols : String) (data : List Nat)
    (backend : Nat → ChunkRes) (dup : Bool) (rid : Int) :
    ∃ b, (execute_batch table cols data backend dup rid).responses = [(rid, b)] := by
  rcases hread : read_u32 data with ⟨o, rest⟩
  cases o with
  | none => exact ⟨encode_error "Failed to read row count", by simp [execute_batch, hread]⟩
  | some n =>
      by_cases hn : n = 0
      · exact ⟨serialize_result [] 0 0, by simp [execute_batch, hread, hn]⟩
      · have hc := split_columns_pos cols
        simp only [execute_batch, hread]
        rw [if_neg hn, if_neg (by omega : ¬ (split_columns cols).length = 0)]
        exact run_chunks_single _ _ _ _ 0 0 0

/-! ### C3: the zero-columns guard -/

/-- C3 counterexample: with the empty column-name string — the one string
denoting zero columns — one declared row and a null value, the batch path
does not report "No columns specified": it treats the input as one
empty-named column, builds and executes the (malformed) statement
`INSERT INTO t () VALUES (?)`, and replies with the backend's Ok result. -/
theorem batch_empty_columns_cex :
    (execute_batch "t" "" [1, 0, 0, 0, 0] (fun _ => .ok 1 none) false 7).statements
        = [("INSERT INTO t () VALUES (?)", [MValue.null])] ∧
    (execute_batch "t" "" [1, 0, 0, 0, 0] (fun _ => .ok 1 none) false 7).responses
        = [(7, serialize_result [] 1 0)] := by
  decide

/-- C3 (amended): the zero-columns guard of the batch path (which would
reply "No columns specified" and build no statement) is dead code —
splitting the column string on `','` always yields at least one,
possibly empty, name, so no input reaches it and the error is never
emitted — and the guard sits in the spawned task anyway: a batch call
with valid handle and strings performs no synchronous callback at all. -/
theorem batch_no_columns_unreachable :
    (∀ s : String, 1 ≤ (split_columns s).length) ∧
    (∀ (table cols : String) (data : List Nat) (backend : Nat → ChunkRes)
        (dup : Bool) (req_id : Int),
      ((execute_batch table cols data backend dup req_id).responses.map Prod.snd).count
          (encode_error "No columns specified") = 0) ∧
    (∀ (t c : String) (data : List Nat) (slot : Option Unit) (backend : Nat → ChunkRes)
        (dup : Bool) (req_id : Int),
      (mysql_conn_batch false (.ok t) (.ok c) data slot backend dup req_id).sync = []) := by
  refine ⟨fun s => split_columns_pos s, ?_, ?_⟩
  · intro table cols data backend dup req_id
    refine List.count_eq_zero.mpr ?_
    intro hmem
    rcases hread : read_u32 data with ⟨o, rest⟩
    cases o with
    | none =>
        simp only [execute_batch, hread, BatchTrace.mk.injEq] at hmem
        simp only [List.map_cons, List.map_nil, List.mem_singleton] at hmem
        have hb : strBytes "No columns specified" = strBytes "Failed to read row count" :=
          encode_error_inj hmem
        exact absurd (congrArg List.length hb) (by decide)
    | some n =>
        by_cases hn : n = 0
        · simp only [execute_batch, hread, hn, if_pos] at hmem
          simp only [List.map_cons, List.map_nil, List.mem_singleton] at hmem
          exact serialize_ne_error [] 0 0 _ hmem.symm
        · have hc := split_columns_pos cols
          simp only [execute_batch, hread] at hmem
          rw [if_neg hn, if_neg (by omega : ¬ (split_columns cols).length = 0)] at hmem
          rcases run_chunks_shape
              (chunk_query table cols
                (String.intercalate "," ((split_columns cols).map fun _ => "?"))
                (if dup then
                  " ON DUPLICATE KEY UPDATE " ++ String.intercalate ", "
                    ((split_columns cols).map fun c => c ++ " = VALUES(" ++ c ++ ")")
                  else "")
                (split_columns cols).length)
              backend req_id
              (chunksOf (max (60000 / (split_columns cols).length) 1 *
                  (split_columns cols).length)
                (parse_values (n * (split_columns cols).length) rest).1)
              0 0 0 with hsh | hsh
          · obtain ⟨a, b, hab⟩ := hsh
            rw [hab] at hmem
            simp only [List.map_cons, List.map_nil, List.mem_singleton] at hmem
            exact serialize_ne_error [] a b _ hmem.symm
          · obtain ⟨e, he⟩ := hsh
            rw [he] at hmem
            simp only [List.map_cons, List.map_nil, List.mem_singleton] at hmem
            exact batch_err_ne_nocols e hmem.symm
  · intro t c data slot backend dup req_id
    cases slot <;> rfl

/-! ### C8: operations on an emptied connection slot -/

/-- C8 counterexample: the closed-slot reply of `mysql_conn_commit` (as
of every closed-slot path) carries the message "Connection is closed" —
capital C — which differs byte-for-byte from the claimed message
"connection is closed". -/
theorem closed_connection_message_cex :
    (mysql_conn_commit false 5 none (.ok ())).responses
        = [(5, encode_error "Connection is closed")] ∧
    (encode_error "Connection is closed").getD 5 0 = 67 ∧
    (encode_error "connection is closed").getD 5 0 = 99 := by
  exact ⟨rfl, by decide, by decide⟩

/-- C8 (amended): every operation targeting a connection or
prepared-statement handle whose lock-guarded slot is empty — raw query,
parameterized query, commit, rollback, batch, prepared execute —
completes through the normal callback with exactly one Error envelope
carrying the message "Connection is closed" (capital C), and the batch
path hands no statement to the backend. -/
theorem closed_connection_reports :
    (∀ (q : String) (req_id : Int) (ex : QueryOutcome),
      (mysql_conn_query_raw false (.ok q) req_id none ex).responses
        = [(req_id, encode_error "Connection is closed")]) ∧
    (∀ (q : String) (pd : List Nat) (req_id : Int) (ex : QueryOutcome),
      (mysql_conn_query false (.ok q) pd req_id none ex).responses
        = [(req_id, encode_error "Connection is closed")]) ∧
    (∀ (req_id : Int) (cr : Except String Unit),
      (mysql_conn_commit false req_id none cr).responses
        = [(req_id, encode_error "Connection is closed")]) ∧
    (∀ (req_id : Int) (rr : Except String Unit),
      (mysql_conn_rollback false req_id none rr).responses
        = [(req_id, encode_error "Connection is closed")]) ∧
    (∀ (t c : String) (data : List Nat) (backend : Nat → ChunkRes) (dup : Bool)
        (req_id : Int),
      (mysql_conn_batch false (.ok t) (.ok c) data none backend dup req_id).responses
          = [(req_id, encode_error "Connection is closed")] ∧
      (mysql_conn_batch false (.ok t) (.ok c) data none backend dup req_id).statements
          = []) ∧
    (∀ (pd : List Nat) (req_id : Int) (ex : QueryOutcome),
      (mysql_stmt_execute false pd req_id none ex).responses
        = [(req_id, encode_error "Connection is closed")]) := by
  exact ⟨fun q rid ex => rfl, fun q pd rid ex => rfl, fun rid cr => rfl,
    fun rid rr => rfl, fun t c d bk dup rid => ⟨rfl, rfl⟩, fun pd rid ex => rfl⟩

/-! ### C1: exactly one callback invocation per request -/

/-- C1: every boundary-facing asynchronous operation — raw query and
parameterized query (pool and connection), prepare, begin-transaction,
commit, rollback, batch insert/upsert (connection and pool, via the
`on_duplicate` flag), and prepared-statement execute — invokes the
completion callback exactly once with the caller's request id, whatever
its arguments and whatever every backend step returns: the combined
synchronous-plus-task response list is exactly one pair carrying
`req_id`. -/
theorem callback_exactly_once :
    (∀ (pn : Bool) (q : CStrArg) (req_id : Int) (gc : Except String Unit)
        (ex : QueryOutcome), ∃ b,
      (mysql_pool_query_raw pn q req_id gc ex).responses = [(req_id, b)]) ∧
    (∀ (pn : Bool) (q : CStrArg) (pd : List Nat) (req_id : Int)
        (gc : Except String Unit) (ex : QueryOutcome), ∃ b,
      (mysql_pool_query pn q pd req_id gc ex).responses = [(req_id, b)]) ∧
    (∀ (pn : Bool) (q : CStrArg) (req_id : Int) (gc pr : Except String Unit)
        (sp : Nat), ∃ b,
      (mysql_pool_prepare pn q req_id gc pr sp).responses = [(req_id, b)]) ∧
    (∀ (pn : Bool) (req_id : Int) (gc st : Except String Unit) (cp : Nat), ∃ b,
      (mysql_pool_begin_transaction pn req_id gc st cp).responses = [(req_id, b)]) ∧
    (∀ (cn : Bool) (q : CStrArg) (req_id : Int) (slot : Option Unit)
        (ex : QueryOutcome), ∃ b,
      (mysql_conn_query_raw cn q req_id slot ex).responses = [(req_id, b)]) ∧
    (∀ (cn : Bool) (q : CStrArg) (pd : List Nat) (req_id : Int) (slot : Option Unit)
        (ex : QueryOutcome), ∃ b,
      (mysql_conn_query cn q pd req_id slot ex).responses = [(req_id, b)]) ∧
    (∀ (cn : Bool) (req_id : Int) (slot : Option Unit) (cr : Except String Unit), ∃ b,
      (mysql_conn_commit cn req_id slot cr).responses = [(req_id, b)]) ∧
    (∀ (cn : Bool) (req_id : Int) (slot : Option Unit) (rr : Except String Unit), ∃ b,
      (mysql_conn_rollback cn req_id slot rr).responses = [(req_id, b)]) ∧
    (∀ (cn : Bool) (t c : CStrArg) (data : List Nat) (slot : Option Unit)
        (backend : Nat → ChunkRes) (dup : Bool) (req_id : Int), ∃ b,
      (mysql_conn_batch cn t c data slot backend dup req_id).responses = [(req_id, b)]) ∧
    (∀ (pn : Bool) (t c : CStrArg) (data : List Nat) (gc : Except String Unit)
        (backend : Nat → ChunkRes) (dup : Bool) (req_id : Int), ∃ b,
      (mysql_pool_batch pn t c data gc backend dup req_id).responses = [(req_id, b)]) ∧
    (∀ (sn : Bool) (pd : List Nat) (req_id : Int) (slot : Option Unit)
        (ex : QueryOutcome), ∃ b,
      (mysql_stmt_execute sn pd req_id slot ex).responses = [(req_id, b)]) := by
  refine ⟨?_, ?_, ?_, ?_, ?_, ?_, ?_, ?_, ?_, ?_, ?_⟩
  · intro pn q rid gc ex
    cases pn <;> cases q <;> cases gc <;> cases ex <;> exact ⟨_, rfl⟩
  · intro pn q pd rid gc ex
    cases pn <;> cases q <;> cases gc <;> cases ex <;> exact ⟨_, rfl⟩
  · intro pn q rid gc pr sp
    cases pn <;> cases q <;> cases gc <;> cases pr <;> exact ⟨_, rfl⟩
  · intro pn rid gc st cp
    cases pn <;> cases gc <;> cases st <;> exact ⟨_, rfl⟩
  · intro cn q rid slot ex
    cases cn <;> cases q <;> cases slot <;> cases ex <;> exact ⟨_, rfl⟩
  · intro cn q pd rid slot ex
    cases cn <;> cases q <;> cases slot <;> cases ex <;> exact ⟨_, rfl⟩
  · intro cn rid slot cr
    cases cn <;> cases slot <;> cases cr <;> exact ⟨_, rfl⟩
  · intro cn rid slot rr
    cases cn <;> cases slot <;> cases rr <;> exact ⟨_, rfl⟩
  · intro cn t c data slot backend dup rid
    cases cn
    · cases t
      · exact ⟨_, rfl⟩
      · exact ⟨_, rfl⟩
      · cases c
        · exact ⟨_, rfl⟩
        · exact ⟨_, rfl⟩
        · cases slot
          · exact ⟨_, rfl⟩
          · obtain ⟨b, hb⟩ := execute_batch_single _ _ data backend dup rid
            exact ⟨b, by
              simp only [mysql_conn_batch, ptr_to_string, BatchPhases.responses,
                List.nil_append]
              rw [← hb]
              rfl⟩
    · exact ⟨_, rfl⟩
  · intro pn t c data gc backend dup rid
    cases pn
    · cases t
      · exact ⟨_, rfl⟩
      · exact ⟨_, rfl⟩
      · cases c
        · exact ⟨_, rfl⟩
        · exact ⟨_, rfl⟩
        · cases gc
          · exact ⟨_, rfl⟩
          · obtain ⟨b, hb⟩ := execute_batch_single _ _ data backend dup rid
            exact ⟨b, by
              simp only [mysql_pool_batch, ptr_to_string, BatchPhases.responses,
                List.nil_append]
              rw [← hb]
              rfl⟩
    · exact ⟨_, rfl⟩
  · intro sn pd rid slot ex
    cases sn <;> cases slot <;> cases ex <;> exact ⟨_, rfl⟩

end TurboMysql
